import Mathlib

/-!
Verification of the pktizr core (pktizr.c, resolv.c) and of the lua-pack
integer serializer (deps/lua-pack/lpack.c) against its natural-language
specification.  Every definition is a shallow embedding of the
corresponding C function; machine integers are modelled as Nat / Int with
explicit reduction mod 2 ^ 64 where the C code computes in 64-bit
unsigned arithmetic, and the C double holding token counts is modelled as
a rational number.
-/

/-! ## Range lists and the generator loop (loop_cb, pktizr.c 343-387) -/

/-- Modelled from the spec: ranges.c is not under src/.  A range list is
represented by its canonical element sequence; pick returns the i-th
element in canonical order (0-indexed) and count the total number of
elements (spec section 4.1). -/
def range_list_pick (l : List Nat) (i : Nat) : Nat := l.getD i 0

/-- Modelled from the spec: the number of elements of a range list. -/
def range_list_count (l : List Nat) : Nat := l.length

/-- State of the generator loop in loop_cb: the token count of its bucket
(a C double, modelled as a rational) and the trace of (daddr, dport)
tuples passed to script_loop, in order. -/
structure GenState where
  tokens : Rat
  calls : List (Nat × Nat)
deriving Repr, DecidableEq

/-- The (daddr, dport) tuple computed at iteration i of loop_cb:
daddr = range_list_pick targets ((i % tgt_cnt) / count) and
dport = range_list_pick ports ((i / tgt_cnt) / count). -/
def loopTuple (targets ports : List Nat) (count i : Nat) : Nat × Nat :=
  (range_list_pick targets ((i % range_list_count targets) / count),
   range_list_pick ports ((i / range_list_count targets) / count))

/-- One iteration of the generator for-loop body in loop_cb:
bucket_consume refills the bucket (modelled by the external refill
function, which may depend on the iteration through the wall clock), the
tuple is computed and handed to script_loop (modelled by script); a
negative status skips the token decrement (continue), otherwise one token
is consumed. -/
def loopStep (targets ports : List Nat) (count : Nat) (script : Nat → Nat → Int)
    (refill : Nat → Rat → Rat) (s : GenState) (i : Nat) : GenState :=
  let t := refill i s.tokens
  let d := loopTuple targets ports count i
  let rc := script d.1 d.2
  { tokens := if rc < 0 then t else t - 1, calls := s.calls ++ [d] }

/-- The generator loop of loop_cb with stop never raised: iterates i over
[0, tgt_cnt * prt_cnt * count), starting from an empty trace. -/
def loopRun (targets ports : List Nat) (count : Nat) (script : Nat → Nat → Int)
    (refill : Nat → Rat → Rat) (tokens0 : Rat) : GenState :=
  (List.range (range_list_count targets * range_list_count ports * count)).foldl
    (loopStep targets ports count script refill) { tokens := tokens0, calls := [] }

/-! ## Address set-up in main (pktizr.c 184-217) -/

/-- Address fields of struct pktizr_args relevant to gateway resolution.
The args record is malloc-ed without initialization, so a field that is
never assigned is modelled as none. -/
structure AddrArgs where
  local_addr : Option Nat
  gateway_addr : Option Nat
deriving Repr, DecidableEq

/-- The address set-up sequence of main (pktizr.c 192-207, straight-line
code): when a gateway-addr option was given on the command line its value
is assigned to local_addr, otherwise gateway_addr is set from the default
route; afterwards local_addr is assigned from the local-addr option when
given, else from the IP resolved for the interface.  The gateway_addr
field is what main then passes as daddr to resolv_addr_to_mac. -/
def mainAddrSetup (gwOpt lclOpt : Option Nat) (routeGate ifaceIp : Nat) : AddrArgs :=
  let s0 : AddrArgs := { local_addr := none, gateway_addr := none }
  let s1 :=
    match gwOpt with
    | some a => { s0 with local_addr := some a }
    | none => { s0 with gateway_addr := some routeGate }
  match lclOpt with
  | some l => { s1 with local_addr := some l }
  | none => { s1 with local_addr := some ifaceIp }

/-! ## Receiver iteration (recv_cb, pktizr.c 299-341) -/

/-- Observable effects of one receiver-loop iteration on a captured
frame: whether the script recv upcall ran, the increment applied to
pkt_recv, and whether the frame was released back to the device. -/
structure RecvIterEffect where
  upcalled : Bool
  recvInc : Nat
  released : Bool
deriving Repr, DecidableEq

/-- One iteration of the recv_cb loop after a successful capture
(pktizr.c 321-335): n is the pkt_unpack return value and scriptRc the
script_recv status.  When n is zero (if (!rc)) the frame is released with
no upcall; otherwise script_recv runs, and pkt_recv is incremented unless
scriptRc is negative.  Every path releases the frame. -/
def recv_iter (n : Int) (scriptRc : Int) : RecvIterEffect :=
  if n = 0 then { upcalled := false, recvInc := 0, released := true }
  else if scriptRc < 0 then { upcalled := true, recvInc := 0, released := true }
  else { upcalled := true, recvInc := 1, released := true }

/-! ## Transmitter iteration (send_cb, pktizr.c 245-297) -/

/-- Observable effects of one transmitter inner-loop iteration on a
dequeued packet: whether the frame was injected, the increments applied
to pkt_sent and pkt_probe, the change applied to the token count of the
bucket (a C double, modelled as a rational), and whether the packet was
freed. -/
structure SendIterEffect where
  injected : Bool
  sentInc : Nat
  probeInc : Nat
  tokenDelta : Rat
  freed : Bool
deriving Repr, DecidableEq

/-- One inner-loop iteration of send_cb for a dequeued packet (pktizr.c
275-292): packLen is the pkt_pack result and probe the probe flag of the
packet.  A negative packLen jumps to done, where the packet is only
freed; otherwise the frame is injected, pkt_sent is incremented, one
token is consumed, and pkt_probe is incremented iff probe is set.  Both
paths free the packet. -/
def send_iter (packLen : Int) (probe : Bool) : SendIterEffect :=
  if packLen < 0 then
    { injected := false, sentInc := 0, probeInc := 0, tokenDelta := 0, freed := true }
  else
    { injected := true, sentInc := 1, probeInc := if probe then 1 else 0,
      tokenDelta := -1, freed := true }

/-! ## Shutdown protocol (pktizr.c 229-236, 267-270, 313-317) -/

/-- The shutdown-relevant operations of the main thread after the status
line returns (pktizr.c 229-236), in program order. -/
inductive MainEvent
  | joinLoop
  | setDone
  | joinRecv
  | joinSend
  | closeNetdev
deriving Repr, DecidableEq

/-- The straight-line shutdown sequence of main: join the generator
thread, set args.done, join the recv thread, join the send thread, close
the device. -/
def mainShutdownEvents : List MainEvent :=
  [MainEvent.joinLoop, MainEvent.setDone, MainEvent.joinRecv,
   MainEvent.joinSend, MainEvent.closeNetdev]

/-- The while (!args.done) loop shape shared by send_cb and recv_cb:
done i is the value of args.done read at the top of iteration i, k the
index of the current iteration, and fuel a bound on the remaining
iterations.  The function returns the index at which the loop exits,
which equals the number of body iterations executed when started at 0. -/
def doneLoopIters (done : Nat → Bool) : Nat → Nat → Nat
  | 0, k => k
  | fuel + 1, k => if done k then k else doneLoopIters done fuel (k + 1)

/-! ## ARP resolver (resolv.c 67-129) -/

/-- A packet node of an unpacked chain, outermost first, as read by the
resolver.  Only the fields the resolver inspects are carried: the type
tag of every layer, and for an ARP node its psrc and pdst IPv4 addresses
(compared by the C code with memcmp over their four network-order bytes,
which is equality of the 32-bit values) and its six hwsrc bytes. -/
inductive PktNode
  | eth
  | arp (psrc pdst : Nat) (hwsrc : List Nat)
  | ip4
  | tcp
  | udp
  | icmp
  | payload
deriving Repr, DecidableEq

/-- The per-frame matching step of the resolver capture loop (resolv.c
110-125).  The unpacked chain is outermost first and its length is the
pkt_unpack return value n; chains with n below two are skipped, otherwise
the second node completes the resolution iff it is an ARP node whose
psrc equals daddr and whose pdst equals saddr, in which case its hwsrc
(the six bytes copied into dhost) is returned. -/
def resolvMatchStep (saddr daddr : Nat) (chain : List PktNode) : Option (List Nat) :=
  if chain.length < 2 then none
  else
    match chain with
    | _ :: PktNode.arp psrc pdst hwsrc :: _ =>
      if psrc ≠ daddr then none
      else if pdst ≠ saddr then none
      else some hwsrc
    | _ => none

/-- The matching condition as the specification words it: the chain
contains an ARP node whose psrc equals the gateway IP daddr and whose
pdst equals the local IP saddr. -/
def chainHasMatchingArp (saddr daddr : Nat) (chain : List PktNode) : Bool :=
  chain.any fun p =>
    match p with
    | PktNode.arp psrc pdst _ => psrc == daddr && pdst == saddr
    | _ => false

/-- Modelled from the spec: pkt.c (pkt_unpack) is not under src/.  Legal
encapsulation adjacency of unpacked chains: Ethernet wraps IPv4 or ARP,
IPv4 wraps TCP, UDP or ICMP, and an opaque payload is the last layer
(spec sections 3 and 4.4). -/
def legalPair : PktNode → PktNode → Bool
  | PktNode.eth, PktNode.ip4 => true
  | PktNode.eth, PktNode.arp _ _ _ => true
  | PktNode.eth, PktNode.payload => true
  | PktNode.ip4, PktNode.tcp => true
  | PktNode.ip4, PktNode.udp => true
  | PktNode.ip4, PktNode.icmp => true
  | PktNode.ip4, PktNode.payload => true
  | PktNode.tcp, PktNode.payload => true
  | PktNode.udp, PktNode.payload => true
  | PktNode.icmp, PktNode.payload => true
  | PktNode.arp _ _ _, PktNode.payload => true
  | _, _ => false

/-- Adjacency of a chain tail: every consecutive pair is legal. -/
def wfTail : PktNode → List PktNode → Bool
  | _, [] => true
  | p, q :: rest => legalPair p q && wfTail q rest

/-- Modelled from the spec: a chain produced by pkt_unpack starts at
Ethernet and every adjacent pair of layers is a legal encapsulation pair
(spec sections 3 and 4.4). -/
def wfChain : List PktNode → Bool
  | [] => true
  | p :: rest => (p == PktNode.eth) && wfTail p rest

/-- The request chain built by resolv_addr_to_mac before injecting
(resolv.c 78-88): an ARP node with sender protocol address saddr, target
protocol address daddr and sender hardware address shost, and an Ethernet
broadcast node, listed in the order the two DL_APPEND calls produce. -/
def arpRequestChain (shost : List Nat) (saddr daddr : Nat) : List PktNode :=
  [PktNode.arp saddr daddr shost, PktNode.eth]

/-- The frames injected by resolv_addr_to_mac: exactly the single packed
ARP request, injected once before the capture loop starts (resolv.c
90-94). -/
def resolvInjections (shost : List Nat) (saddr daddr : Nat) : List (List PktNode) :=
  [arpRequestChain shost saddr daddr]

/-- The capture loop of resolv_addr_to_mac (resolv.c 96-128) run over a
finite observation trace.  Each trace entry carries the time_now value
read at the timeout test of that iteration and the chain unpacked from
the captured frame (none when capture returned NULL).  Each iteration
first tests whether more than 5000000 microseconds elapsed since start
and returns -1 if so; empty captures and non-matching chains are skipped;
the first matching ARP reply completes with 0 and the hwsrc bytes copied
into dhost.  The result is none when the trace is exhausted with the loop
still running. -/
def resolvLoop (saddr daddr start : Nat) :
    List (Nat × Option (List PktNode)) → Option (Int × Option (List Nat))
  | [] => none
  | (t, rsp) :: rest =>
    if t - start > 5000000 then some (-1, none)
    else
      match rsp with
      | none => resolvLoop saddr daddr start rest
      | some chain =>
        match resolvMatchStep saddr daddr chain with
        | some hw => some (0, some hw)
        | none => resolvLoop saddr daddr start rest

/-- The startup check of main after calling resolv_addr_to_mac (pktizr.c
213-217): a negative return value aborts the process with a fatal
diagnostic (fail_printf). -/
def mainResolvAborts (rc : Int) : Bool := rc < 0

/-! ## lua-pack integer serialization (deps/lua-pack/lpack.c 249-263 and
375-398) -/

/-- Number of bits in a character (CHAR_BIT). -/
def lpackNB : Nat := 8

/-- Mask for one character: (1 <<< NB) - 1 = 0xFF. -/
def lpackMC : Nat := (1 <<< lpackNB) - 1

/-- Size in bytes of a lua_Integer, a 64-bit signed integer. -/
def SZINT : Nat := 8

/-- The modulus of lua_Unsigned (64-bit unsigned) arithmetic. -/
def U64 : Nat := 2 ^ 64

/-- Reinterpret a 64-bit unsigned value as a signed lua_Integer (the
final cast of unpackint). -/
def toSigned64 (u : Nat) : Int :=
  if u < 2 ^ 63 then (u : Int) else (u : Int) - (2 ^ 64 : Int)

/-- The lua_Unsigned view of a lua_Integer: its value mod 2 ^ 64, as the
cast (lua_Unsigned)n computes it. -/
def toU64 (n : Int) : Nat := (n % ((2 : Int) ^ 64)).toNat

/-- The byte that packint stores at logical position i (the i-th
least-significant byte): the first loop writes the successive low bytes
of the shifted lua_Unsigned value, and the final correction loop
overwrites positions SZINT and above with 0xFF for a negative number
wider than a lua_Integer. -/
def packByte (u : Nat) (neg : Bool) (size i : Nat) : Nat :=
  if neg && decide (SZINT < size) && decide (SZINT ≤ i) then lpackMC
  else (u >>> (lpackNB * i)) &&& lpackMC

/-- packint from lpack.c: serializes the lua_Unsigned value u into size
bytes.  Little endian stores logical byte i at buffer position i, big
endian at position size - 1 - i, so the big-endian buffer is the reverse
of the little-endian one. -/
def packint (u : Nat) (islittle : Bool) (size : Nat) (neg : Bool) : List Nat :=
  let le := (List.range size).map (packByte u neg size)
  if islittle then le else le.reverse

/-- The byte unpackint reads at loop index i: str[islittle ? i :
size - 1 - i]. -/
def readByte (str : List Nat) (islittle : Bool) (size i : Nat) : Nat :=
  str.getD (if islittle then i else size - 1 - i) 0

/-- The accumulation loop of unpackint: for i = limit - 1 down to 0 the
64-bit accumulator is shifted left one byte and the byte at loop index i
is or-ed in. -/
def unpackAcc (get : Nat → Nat) : Nat → Nat → Nat
  | 0, res => res
  | i + 1, res => unpackAcc get i (((res <<< lpackNB) % U64) ||| get i)

/-- unpackint from lpack.c: reads size bytes with the given endianness
and signedness and returns the lua_Integer result, or none when the
overflow check for size above SZINT raises a Lua error.  The sign
extension (res ^ mask) - mask is computed in wrapping 64-bit unsigned
arithmetic. -/
def unpackint (str : List Nat) (islittle : Bool) (size : Nat) (issigned : Bool) :
    Option Int :=
  let limit := if size ≤ SZINT then size else SZINT
  let res := unpackAcc (fun i => readByte str islittle size i) limit 0
  if size < SZINT then
    if issigned then
      let mask := 1 <<< (size * lpackNB - 1)
      some (toSigned64 (((res ^^^ mask) + (U64 - mask)) % U64))
    else
      some (toSigned64 res)
  else if size > SZINT then
    let m := if issigned = false ∨ 0 ≤ toSigned64 res then 0 else lpackMC
    if (List.range (size - limit)).all
        (fun k => readByte str islittle size (limit + k) == m) then
      some (toSigned64 res)
    else none
  else
    some (toSigned64 res)

/-! ## Theorems: generator enumeration (C1, C5, C9) -/

/-- Folding the generator body over any index list appends exactly the
tuples of those indexes to the trace. -/
theorem loopStep_foldl_calls (targets ports : List Nat) (count : Nat)
    (script : Nat → Nat → Int) (refill : Nat → Rat → Rat) :
    ∀ (l : List Nat) (s : GenState),
      (l.foldl (loopStep targets ports count script refill) s).calls =
        s.calls ++ l.map (loopTuple targets ports count) := by
  intro l
  induction l with
  | nil => intro s; simp
  | cons a l ih =>
    intro s
    rw [List.foldl_cons, ih]
    simp [loopStep]

/-- C5: for every iteration index i below tgt_cnt * prt_cnt * count, the
i-th tuple the generator hands to script_loop picks the target at
range-list index (i mod tgt_cnt) / count and the port at range-list
index (i / tgt_cnt) / count. -/
theorem loop_cb_pick_indices (targets ports : List Nat) (count : Nat)
    (script : Nat → Nat → Int) (refill : Nat → Rat → Rat) (t0 : Rat) (i : Nat)
    (hi : i < range_list_count targets * range_list_count ports * count) :
    (loopRun targets ports count script refill t0).calls[i]? =
      some (range_list_pick targets ((i % range_list_count targets) / count),
            range_list_pick ports ((i / range_list_count targets) / count)) := by
  unfold loopRun
  rw [loopStep_foldl_calls]
  simp [List.getElem?_map, List.getElem?_range hi, loopTuple]

/-- Witness for loop_cb_pick_indices: two targets, two ports, count one,
iteration 3 picks target index 1 and port index 1. -/
theorem loop_cb_pick_indices_check :
    (loopRun [10, 11] [22, 80] 1 (fun _ _ => 0) (fun _ t => t) 0).calls[3]? =
      some (range_list_pick [10, 11] ((3 % range_list_count [10, 11]) / 1),
            range_list_pick [22, 80] ((3 / range_list_count [10, 11]) / 1)) :=
  loop_cb_pick_indices [10, 11] [22, 80] 1 (fun _ _ => 0) (fun _ t => t) 0 3 (by decide)

/-- C1: evaluation of the generator at two targets, one port, count two.
The trace has cardinality 2 * 1 * 2 = 4, but the pair (11, 22) drawn from
the range lists is enumerated 0 times instead of count = 2 times, since
(10, 22) is enumerated 4 times: target index (i mod 2) / 2 never reaches
1. -/
theorem loop_cb_duplicate_multiset_diverges :
    (loopRun [10, 11] [22] 2 (fun _ _ => 0) (fun _ t => t) 0).calls =
        [(10, 22), (10, 22), (10, 22), (10, 22)] ∧
    (loopRun [10, 11] [22] 2 (fun _ _ => 0) (fun _ t => t) 0).calls.count (11, 22) = 0 ∧
    (loopRun [10, 11] [22] 2 (fun _ _ => 0) (fun _ t => t) 0).calls.length = 2 * 1 * 2 :=
  ⟨by decide, by decide, by decide⟩

/-- C9: a negative script_loop status skips the tuple: that iteration
leaves the token count exactly as bucket_consume left it (no decrement),
still records the call, and the generator loop runs through all
tgt_cnt * prt_cnt * count iterations rather than aborting. -/
theorem loop_cb_negative_status_skips (targets ports : List Nat) (count : Nat)
    (script : Nat → Nat → Int) (refill : Nat → Rat → Rat) (t0 : Rat)
    (s : GenState) (i : Nat)
    (hneg : script (loopTuple targets ports count i).1
      (loopTuple targets ports count i).2 < 0) :
    (loopStep targets ports count script refill s i).tokens = refill i s.tokens ∧
    (loopStep targets ports count script refill s i).calls =
      s.calls ++ [loopTuple targets ports count i] ∧
    (loopRun targets ports count script refill t0).calls.length =
      range_list_count targets * range_list_count ports * count := by
  refine ⟨?_, ?_, ?_⟩
  · simp [loopStep, hneg]
  · simp [loopStep]
  · unfold loopRun
    rw [loopStep_foldl_calls]
    simp

/-- Witness for loop_cb_negative_status_skips: a script that always
returns -1 leaves the refilled token count untouched and the loop trace
complete. -/
theorem loop_cb_negative_status_skips_check :
    (fun (_ _ : Nat) => (-1 : Int)) (loopTuple [10] [22] 1 0).1
        (loopTuple [10] [22] 1 0).2 < 0 ∧
    (loopStep [10] [22] 1 (fun _ _ => -1) (fun _ t => t + 5)
        { tokens := 3, calls := [] } 0).tokens =
      (fun (_ : Nat) (t : Rat) => t + 5) 0
        (GenState.tokens { tokens := 3, calls := [] }) ∧
    (loopRun [10] [22] 1 (fun _ _ => -1) (fun _ t => t + 5) 3).calls.length =
      range_list_count [10] * range_list_count [22] * 1 :=
  ⟨by decide,
   (loop_cb_negative_status_skips [10] [22] 1 (fun _ _ => -1) (fun _ t => t + 5) 3
     { tokens := 3, calls := [] } 0 (by decide)).1,
   (loop_cb_negative_status_skips [10] [22] 1 (fun _ _ => -1) (fun _ t => t + 5) 3
     { tokens := 3, calls := [] } 0 (by decide)).2.2⟩

/-! ## Theorems: gateway address option (C2) -/

/-- C2: with gateway-addr 16909060 (1.2.3.4) given on the command line
and no local-addr option, the set-up in main leaves args.gateway_addr
(the daddr later passed to resolv_addr_to_mac) unassigned and overwrites
args.local_addr with the interface IP 42: the supplied gateway address is
used for neither field, contradicting the claim that the resolver daddr
equals it and that local_addr is unaffected. -/
theorem gateway_addr_option_misassigned :
    (mainAddrSetup (some 16909060) none 99 42).gateway_addr = none ∧
    (mainAddrSetup (some 16909060) none 99 42).gateway_addr ≠ some 16909060 ∧
    (mainAddrSetup (some 16909060) none 99 42).local_addr = some 42 := by
  refine ⟨by decide, by decide, by decide⟩

/-! ## Theorems: receiver unpack guard (C4) -/

/-- C4 as stated is false: a pkt_unpack return of 1 (fewer than two
layers) does not skip the frame; recv_cb only tests for zero, so the
script recv upcall runs and pkt_recv is incremented. -/
theorem recv_fewer_than_two_layers_claim_false :
    ¬ ∀ (n scriptRc : Int), n < 2 →
        (recv_iter n scriptRc).upcalled = false ∧
        (recv_iter n scriptRc).recvInc = 0 := by
  intro h
  have h1 := (h 1 0 (by decide)).1
  simp [recv_iter] at h1

/-- C4 (amended): a captured frame for which pkt_unpack returns zero
layers is released back to the device without the script recv upcall and
without incrementing pkt_recv. -/
theorem recv_zero_layers_released (scriptRc : Int) :
    recv_iter 0 scriptRc = { upcalled := false, recvInc := 0, released := true } := rfl

/-! ## Theorems: transmitter pack failure and success (C6) -/

/-- C6: a pack failure (negative pkt_pack result) frees the packet
without injecting it, leaves pkt_sent and pkt_probe unchanged and does
not consume a token; a successful pack injects the frame, increments
pkt_sent by one, costs exactly one token, frees the packet, and
increments pkt_probe exactly when the probe flag is set. -/
theorem send_pack_failure_and_success (packLen : Int) (probe : Bool) :
    (packLen < 0 → send_iter packLen probe =
      { injected := false, sentInc := 0, probeInc := 0, tokenDelta := 0,
        freed := true }) ∧
    (0 ≤ packLen →
      (send_iter packLen probe).injected = true ∧
      (send_iter packLen probe).sentInc = 1 ∧
      (send_iter packLen probe).tokenDelta = -1 ∧
      (send_iter packLen probe).freed = true ∧
      ((send_iter packLen probe).probeInc = 1 ↔ probe = true)) := by
  constructor
  · intro h
    simp [send_iter, h]
  · intro h
    have hn : ¬ packLen < 0 := not_lt.mpr h
    cases probe <;> simp [send_iter, hn]

/-- Witness for send_pack_failure_and_success: pack result -7 drops the
packet, pack result 54 with the probe flag set injects it and counts the
probe. -/
theorem send_pack_failure_and_success_check :
    ((-7 : Int) < 0 ∧ send_iter (-7) true =
      { injected := false, sentInc := 0, probeInc := 0, tokenDelta := 0,
        freed := true }) ∧
    ((0 : Int) ≤ 54 ∧ (send_iter 54 true).injected = true ∧
      (send_iter 54 true).probeInc = 1) :=
  ⟨⟨by decide, (send_pack_failure_and_success (-7) true).1 (by decide)⟩,
   ⟨by decide, ((send_pack_failure_and_success 54 true).2 (by decide)).1,
    (((send_pack_failure_and_success 54 true).2 (by decide)).2.2.2.2).mpr rfl⟩⟩

/-! ## Theorems: shutdown protocol (C8) -/

/-- A done-tested loop started at index k exits at the first index j at
or after k at which done reads true, given enough fuel. -/
theorem doneLoopIters_exits (done : Nat → Bool) :
    ∀ (fuel k j : Nat), k ≤ j → j - k < fuel →
      (∀ i, k ≤ i → i < j → done i = false) → done j = true →
      doneLoopIters done fuel k = j := by
  intro fuel
  induction fuel with
  | zero => intro k j h1 h2 _ _; omega
  | succ fuel ih =>
    intro k j hkj hfuel hfalse htrue
    by_cases hk : done k = true
    · have hkeq : k = j := by
        by_contra hne
        have hklt : k < j := lt_of_le_of_ne hkj hne
        have := hfalse k le_rfl hklt
        rw [this] at hk
        exact Bool.noConfusion hk
      rw [doneLoopIters, if_pos hk, hkeq]
    · have hkv : done k = false := Bool.eq_false_iff.mpr hk
      have hklt : k < j := by
        rcases Nat.eq_or_lt_of_le hkj with h | h
        · rw [h] at hkv
          rw [htrue] at hkv
          exact Bool.noConfusion hkv
        · exact h
      rw [doneLoopIters, if_neg hk]
      exact ih (k + 1) j hklt (by omega)
        (fun i hi1 hi2 => hfalse i (by omega) hi2) htrue

/-- C8: in the shutdown sequence of main the generator join strictly
precedes setting done, which strictly precedes both the recv join and the
send join; and a worker loop of the send_cb / recv_cb shape that reads
done = true for the first time at iteration j exits there, having
executed exactly j body iterations. -/
theorem shutdown_ordering (done : Nat → Bool) (j fuel : Nat)
    (hfirst : ∀ i, i < j → done i = false) (hj : done j = true) (hfuel : j < fuel) :
    mainShutdownEvents.indexOf MainEvent.joinLoop <
      mainShutdownEvents.indexOf MainEvent.setDone ∧
    mainShutdownEvents.indexOf MainEvent.setDone <
      mainShutdownEvents.indexOf MainEvent.joinRecv ∧
    mainShutdownEvents.indexOf MainEvent.setDone <
      mainShutdownEvents.indexOf MainEvent.joinSend ∧
    doneLoopIters done fuel 0 = j :=
  ⟨by decide, by decide, by decide,
   doneLoopIters_exits done fuel 0 j (Nat.zero_le j) (by omega)
     (fun i _ h2 => hfirst i h2) hj⟩

/-- Witness for shutdown_ordering: done first reads true at iteration 2
with fuel 5. -/
theorem shutdown_ordering_check :
    (∀ i, i < 2 → (fun n => decide (2 ≤ n)) i = false) ∧
    (fun n => decide (2 ≤ n)) 2 = true ∧ 2 < 5 ∧
    doneLoopIters (fun n => decide (2 ≤ n)) 5 0 = 2 :=
  ⟨by decide, by decide, by decide,
   (shutdown_ordering (fun n => decide (2 ≤ n)) 2 5 (by decide) (by decide)
     (by decide)).2.2.2⟩

/-! ## Theorems: resolver matching (C3) -/

/-- In a well-formed tail whose start is not Ethernet, no ARP node
occurs: ARP is only a legal successor of Ethernet, and Ethernet never
occurs as a successor. -/
theorem wfTail_no_arp :
    ∀ (rest : List PktNode) (q : PktNode), wfTail q rest = true →
      q ≠ PktNode.eth → ∀ a b h, PktNode.arp a b h ∉ rest := by
  intro rest
  induction rest with
  | nil =>
    intro q _ _ a b h hmem
    exact absurd hmem (List.not_mem_nil _)
  | cons r rest ih =>
    intro q hwf hq a b h hmem
    rw [wfTail, Bool.and_eq_true] at hwf
    obtain ⟨h1, h2⟩ := hwf
    rcases List.mem_cons.mp hmem with heq | hmem2
    · rw [← heq] at h1
      cases q
      case eth => exact hq rfl
      all_goals simp [legalPair] at h1
    · have hrne : r ≠ PktNode.eth := by
        intro hr
        rw [hr] at h1
        cases q <;> simp [legalPair] at h1
      exact ih r h2 hrne a b h hmem2

/-- Any-matcher of a chain without ARP nodes is false. -/
theorem chainHasMatchingArp_eq_false (saddr daddr : Nat) (l : List PktNode)
    (hno : ∀ a b h, PktNode.arp a b h ∉ l) :
    chainHasMatchingArp saddr daddr l = false := by
  rw [chainHasMatchingArp, List.any_eq_false]
  intro p hp
  cases p
  case arp a b h => exact absurd hp (hno a b h)
  all_goals simp

/-- C3: for a well-formed unpacked chain, the per-frame step of the
resolver completes iff the chain contains an ARP node whose psrc equals
the gateway IP daddr and whose pdst equals the local IP saddr, and the
bytes it copies into dhost on completion are the hwsrc of such an ARP
node of the chain. -/
theorem resolv_match_iff (saddr daddr : Nat) (chain : List PktNode)
    (hwf : wfChain chain = true) :
    ((resolvMatchStep saddr daddr chain).isSome = true ↔
      chainHasMatchingArp saddr daddr chain = true) ∧
    (∀ hw, resolvMatchStep saddr daddr chain = some hw →
      PktNode.arp daddr saddr hw ∈ chain) := by
  match chain, hwf with
  | [], _ =>
    constructor
    · simp [resolvMatchStep, chainHasMatchingArp]
    · intro hw h
      simp [resolvMatchStep] at h
  | [p], hwf =>
    rw [wfChain, Bool.and_eq_true] at hwf
    obtain ⟨hp, _⟩ := hwf
    have hpe : p = PktNode.eth := by
      cases p <;> first | rfl | simp at hp
    subst hpe
    constructor
    · simp [resolvMatchStep, chainHasMatchingArp]
    · intro hw h
      simp [resolvMatchStep] at h
  | p :: q :: rest, hwf =>
    rw [wfChain, Bool.and_eq_true] at hwf
    obtain ⟨hp, htail⟩ := hwf
    have hpe : p = PktNode.eth := by
      cases p <;> first | rfl | simp at hp
    subst hpe
    rw [wfTail, Bool.and_eq_true] at htail
    obtain ⟨hpair, htail2⟩ := htail
    have hlen : ¬ (PktNode.eth :: q :: rest).length < 2 := by
      simp
    cases q
    case eth => simp [legalPair] at hpair
    case tcp => simp [legalPair] at hpair
    case udp => simp [legalPair] at hpair
    case icmp => simp [legalPair] at hpair
    case ip4 =>
      have hno := wfTail_no_arp rest PktNode.ip4 htail2 (by intro h; exact PktNode.noConfusion h)
      have hno2 : ∀ a b h, PktNode.arp a b h ∉ PktNode.eth :: PktNode.ip4 :: rest := by
        intro a b h hmem
        rcases List.mem_cons.mp hmem with h1 | hmem2
        · exact PktNode.noConfusion h1
        · rcases List.mem_cons.mp hmem2 with h2 | hmem3
          · exact PktNode.noConfusion h2
          · exact hno a b h hmem3
      have hstep : resolvMatchStep saddr daddr (PktNode.eth :: PktNode.ip4 :: rest) = none := by
        rw [resolvMatchStep, if_neg hlen]
        intro head psrc pdst hwsrc tail heq
        injection heq with e1 e2
        injection e2 with e3 e4
        exact PktNode.noConfusion e3
      constructor
      · rw [hstep, chainHasMatchingArp_eq_false saddr daddr _ hno2]
        simp
      · intro hw h
        rw [hstep] at h
        exact Option.noConfusion h
    case payload =>
      have hno := wfTail_no_arp rest PktNode.payload htail2 (by intro h; exact PktNode.noConfusion h)
      have hno2 : ∀ a b h, PktNode.arp a b h ∉ PktNode.eth :: PktNode.payload :: rest := by
        intro a b h hmem
        rcases List.mem_cons.mp hmem with h1 | hmem2
        · exact PktNode.noConfusion h1
        · rcases List.mem_cons.mp hmem2 with h2 | hmem3
          · exact PktNode.noConfusion h2
          · exact hno a b h hmem3
      have hstep : resolvMatchStep saddr daddr (PktNode.eth :: PktNode.payload :: rest) = none := by
        rw [resolvMatchStep, if_neg hlen]
        intro head psrc pdst hwsrc tail heq
        injection heq with e1 e2
        injection e2 with e3 e4
        exact PktNode.noConfusion e3
      constructor
      · rw [hstep, chainHasMatchingArp_eq_false saddr daddr _ hno2]
        simp
      · intro hw h
        rw [hstep] at h
        exact Option.noConfusion h
    case arp psrc pdst hwsrc =>
      have hno := wfTail_no_arp rest (PktNode.arp psrc pdst hwsrc) htail2
        (by intro h; exact PktNode.noConfusion h)
      have hrest := chainHasMatchingArp_eq_false saddr daddr rest hno
      rw [chainHasMatchingArp] at hrest
      constructor
      · rw [resolvMatchStep, if_neg hlen]
        rw [chainHasMatchingArp]
        simp only [List.any_cons]
        by_cases h1 : psrc = daddr
        · by_cases h2 : pdst = saddr
          · simp [h1, h2, hrest]
          · simp [h1, h2, hrest]
        · simp [h1, hrest]
      · intro hw h
        rw [resolvMatchStep, if_neg hlen] at h
        by_cases h1 : psrc = daddr
        · by_cases h2 : pdst = saddr
          · simp [h1, h2] at h
            rw [← h, ← h1, ← h2]
            exact List.mem_cons_of_mem _ (List.mem_cons_self _ _)
          · simp [h1, h2] at h
        · simp [h1] at h

/-- Witness for resolv_match_iff: a well-formed reply chain whose ARP
node matches daddr = 5, saddr = 7 completes with its hwsrc. -/
theorem resolv_match_iff_check :
    wfChain [PktNode.eth, PktNode.arp 5 7 [1, 2, 3, 4, 5, 6]] = true ∧
    PktNode.arp 5 7 [1, 2, 3, 4, 5, 6] ∈
      [PktNode.eth, PktNode.arp 5 7 [1, 2, 3, 4, 5, 6]] :=
  ⟨by decide,
   (resolv_match_iff 7 5 [PktNode.eth, PktNode.arp 5 7 [1, 2, 3, 4, 5, 6]]
     (by decide)).2 [1, 2, 3, 4, 5, 6] rfl⟩

/-! ## Theorems: resolver injection and timeout (C7) -/

/-- The capture loop returns -1 when every chain captured within the
5000000 microsecond window fails the match and the clock eventually
exceeds the window. -/
theorem resolvLoop_timeout (saddr daddr start : Nat) :
    ∀ (trace : List (Nat × Option (List PktNode))),
      (∀ t chain, (t, some chain) ∈ trace → t - start ≤ 5000000 →
        resolvMatchStep saddr daddr chain = none) →
      (∃ t rsp, (t, rsp) ∈ trace ∧ t - start > 5000000) →
      resolvLoop saddr daddr start trace = some (-1, none) := by
  intro trace
  induction trace with
  | nil =>
    intro _ hclock
    obtain ⟨t, rsp, hmem, _⟩ := hclock
    exact absurd hmem (List.not_mem_nil _)
  | cons e rest ih =>
    intro hnomatch hclock
    obtain ⟨t, rsp⟩ := e
    simp only [resolvLoop]
    by_cases ht : t - start > 5000000
    · rw [if_pos ht]
    · rw [if_neg ht]
      have hrec : resolvLoop saddr daddr start rest = some (-1, none) := by
        apply ih
        · intro t2 c2 hm hle
          exact hnomatch t2 c2 (List.mem_cons_of_mem _ hm) hle
        · obtain ⟨t2, rsp2, hmem, hgt⟩ := hclock
          rcases List.mem_cons.mp hmem with heq | hm
          · injection heq with e1 e2
            subst e1
            exact absurd hgt ht
          · exact ⟨t2, rsp2, hm, hgt⟩
      cases rsp with
      | none => exact hrec
      | some chain =>
        have hm := hnomatch t chain (List.mem_cons_self _ _) (le_of_not_lt ht)
        simp only [hm]
        exact hrec

/-- C7: the resolver injects exactly one frame, the packed ARP request;
and when no matching reply is captured within 5000000 microseconds of
start (and the polled clock eventually passes the window) the capture
loop returns -1 without writing dhost, upon which main aborts startup
with a fatal diagnostic. -/
theorem resolv_single_inject_and_timeout (shost : List Nat) (saddr daddr start : Nat)
    (trace : List (Nat × Option (List PktNode)))
    (hnomatch : ∀ t chain, (t, some chain) ∈ trace → t - start ≤ 5000000 →
      resolvMatchStep saddr daddr chain = none)
    (hclock : ∃ t rsp, (t, rsp) ∈ trace ∧ t - start > 5000000) :
    (resolvInjections shost saddr daddr).length = 1 ∧
    resolvLoop saddr daddr start trace = some (-1, none) ∧
    mainResolvAborts (-1) = true :=
  ⟨rfl, resolvLoop_timeout saddr daddr start trace hnomatch hclock, rfl⟩

/-- Witness for resolv_single_inject_and_timeout: a trace with one empty
capture and one that arrives after the window times out. -/
theorem resolv_single_inject_and_timeout_check :
    (resolvInjections [1, 2, 3, 4, 5, 6] 7 5).length = 1 ∧
    resolvLoop 7 5 0 [(100, none),
      (6000001, some [PktNode.eth, PktNode.arp 5 7 [9, 9, 9, 9, 9, 9]])] =
      some (-1, none) ∧
    mainResolvAborts (-1) = true :=
  resolv_single_inject_and_timeout [1, 2, 3, 4, 5, 6] 7 5 0
    [(100, none), (6000001, some [PktNode.eth, PktNode.arp 5 7 [9, 9, 9, 9, 9, 9]])]
    (by
      intro t chain hmem hle
      rcases List.mem_cons.mp hmem with heq | hmem2
      · injection heq with e1 e2
        exact Option.noConfusion e2
      · rcases List.mem_cons.mp hmem2 with heq2 | hmem3
        · injection heq2 with e1 e2
          subst e1
          omega
        · exact absurd hmem3 (List.not_mem_nil _))
    ⟨6000001, some [PktNode.eth, PktNode.arp 5 7 [9, 9, 9, 9, 9, 9]],
      by simp, by omega⟩

/-! ## Theorems: lua-pack integer round-trip (C10) -/

/-- Or-ing a byte below 256 into a value whose low byte is cleared by a
left shift of 8 is addition. -/
theorem lor_byte_eq_add (a b : Nat) (hb : b < 256) :
    ((a <<< 8) ||| b) = 2 ^ 8 * a + b := by
  have hb8 : b < 2 ^ 8 := by norm_num at hb ⊢; exact hb
  apply Nat.eq_of_testBit_eq
  intro j
  rw [Nat.testBit_lor, Nat.testBit_shiftLeft, Nat.testBit_mul_pow_two_add a hb8 j]
  by_cases hj : j < 8
  · have : ¬ (j ≥ 8) := by omega
    simp [hj, this]
  · have hj8 : j ≥ 8 := by omega
    have hbj : b.testBit j = false :=
      Nat.testBit_lt_two_pow (lt_of_lt_of_le hb8 (Nat.pow_le_pow_right (by norm_num) hj8))
    simp [hj, hj8, hbj]

/-- Xor with a power of two above the value is addition. -/
theorem xor_two_pow_of_lt (b k : Nat) (hb : b < 2 ^ k) : b ^^^ 2 ^ k = b + 2 ^ k := by
  apply Nat.eq_of_testBit_eq
  intro j
  rw [Nat.testBit_xor]
  have hsum : b + 2 ^ k = 2 ^ k * 1 + b := by ring
  rw [hsum, Nat.testBit_mul_pow_two_add 1 hb j]
  by_cases hj : j < k
  · have hne : k ≠ j := by omega
    have htkj : (2 ^ k).testBit j = false := by
      rw [Nat.testBit_two_pow]
      simp [hne]
    rw [htkj, if_pos hj, Bool.xor_false]
  · rcases Nat.eq_or_lt_of_le (le_of_not_lt hj) with hkj | hkj
    · rw [← hkj]
      have hbk : b.testBit k = false := Nat.testBit_lt_two_pow hb
      have htk : (2 ^ k).testBit k = true := by
        rw [Nat.testBit_two_pow]
        simp
      have h10 : Nat.testBit 1 0 = true := rfl
      rw [hbk, htk, if_neg (lt_irrefl k), Nat.sub_self, h10]
      rfl
    · have hbj : b.testBit j = false :=
        Nat.testBit_lt_two_pow (lt_trans hb (Nat.pow_lt_pow_right one_lt_two hkj))
      have hne : k ≠ j := by omega
      have htkj : (2 ^ k).testBit j = false := by
        rw [Nat.testBit_two_pow]
        simp [hne]
      have ht1 : Nat.testBit 1 (j - k) = false :=
        Nat.testBit_lt_two_pow (Nat.one_lt_two_pow_iff.mpr (by omega))
      rw [hbj, htkj, if_neg hj, ht1]
      rfl

/-- Xor with a power of two at or below the value (within the next power)
is subtraction. -/
theorem xor_two_pow_of_ge (b k : Nat) (h1 : 2 ^ k ≤ b) (h2 : b < 2 ^ (k + 1)) :
    b ^^^ 2 ^ k = b - 2 ^ k := by
  have hpow : 2 ^ (k + 1) = 2 ^ k * 2 := by ring
  have hr : b - 2 ^ k < 2 ^ k := by omega
  have hb : b = (b - 2 ^ k) + 2 ^ k := by omega
  calc b ^^^ 2 ^ k = ((b - 2 ^ k) + 2 ^ k) ^^^ 2 ^ k := by rw [← hb]
    _ = ((b - 2 ^ k) ^^^ 2 ^ k) ^^^ 2 ^ k := by rw [xor_two_pow_of_lt _ _ hr]
    _ = (b - 2 ^ k) ^^^ (2 ^ k ^^^ 2 ^ k) := Nat.xor_assoc _ _ _
    _ = b - 2 ^ k := by rw [Nat.xor_self, Nat.xor_zero]

/-- For sizes within a lua_Integer the sign-extension correction loop of
packint is inactive and byte i is the i-th low byte of the value. -/
theorem packByte_eq (u : Nat) (neg : Bool) (size i : Nat) (hs : size ≤ 8) :
    packByte u neg size i = (u / 2 ^ (8 * i)) % 256 := by
  have hns : decide (SZINT < size) = false := by
    rw [decide_eq_false_iff_not, SZINT]
    omega
  have hmc : lpackMC = 2 ^ 8 - 1 := rfl
  have hnb : lpackNB = 8 := rfl
  rw [packByte, hns, hmc, hnb]
  simp only [Bool.and_false, Bool.false_and, Bool.false_eq_true, if_false]
  rw [Nat.and_pow_two_sub_one_eq_mod, Nat.shiftRight_eq_div_pow]

/-- The packed buffer has exactly size bytes. -/
theorem packint_length (u : Nat) (islittle : Bool) (size : Nat) (neg : Bool) :
    (packint u islittle size neg).length = size := by
  rw [packint]
  cases islittle <;> simp

/-- Reading back logical byte i of a packed buffer yields the i-th low
byte of the value, for either endianness. -/
theorem readByte_packint (u : Nat) (islittle : Bool) (size : Nat) (neg : Bool) (i : Nat)
    (hi : i < size) (hs : size ≤ 8) :
    readByte (packint u islittle size neg) islittle size i = (u / 2 ^ (8 * i)) % 256 := by
  rw [readByte, packint]
  cases islittle
  case true =>
    simp only [if_true]
    rw [List.getD_eq_getElem?_getD, List.getElem?_map, List.getElem?_range hi]
    simp [packByte_eq u neg size i hs]
  case false =>
    simp only [if_false, Bool.false_eq_true]
    have hj : size - 1 - i < ((List.range size).map (packByte u neg size)).reverse.length := by
      simp
      omega
    rw [List.getD_eq_getElem?_getD, List.getElem?_eq_getElem hj]
    simp only [Option.getD_some]
    rw [List.getElem_reverse]
    simp only [List.getElem_map, List.getElem_range, List.length_map, List.length_range]
    have hidx : size - 1 - (size - 1 - i) = i := by omega
    rw [hidx, packByte_eq u neg size i hs]

/-- The accumulator loop of unpackint reconstructs the value mod the
window width, as long as at most eight bytes are read. -/
theorem unpackAcc_eq (get : Nat → Nat) (u : Nat) :
    ∀ (i : Nat), i ≤ 8 → (∀ j, j < i → get j = (u / 2 ^ (8 * j)) % 256) →
      ∀ (res : Nat), res < 2 ^ (64 - 8 * i) →
      unpackAcc get i res = res * 2 ^ (8 * i) + u % 2 ^ (8 * i) := by
  intro i
  induction i with
  | zero =>
    intro _ _ res _
    simp [unpackAcc, Nat.mod_one]
  | succ i ih =>
    intro hi8 hget res hres
    rw [unpackAcc]
    have h256 : (2 : Nat) ^ 8 = 256 := by norm_num
    have hshift : res <<< lpackNB = res * 256 := by
      rw [show lpackNB = 8 from rfl, Nat.shiftLeft_eq, h256]
    have epow : (256 : Nat) * 2 ^ (64 - 8 * (i + 1)) = 2 ^ (64 - 8 * i) := by
      rw [← h256, ← pow_add]
      congr 1
      omega
    have hresU : res * 256 < U64 := by
      rw [U64]
      have h64 : (2 : Nat) ^ (64 - 8 * i) ≤ 2 ^ 64 := Nat.pow_le_pow_right (by norm_num) (by omega)
      omega
    have hmod : (res <<< lpackNB) % U64 = res * 256 := by
      rw [hshift, Nat.mod_eq_of_lt hresU]
    have hgi : get i = (u / 2 ^ (8 * i)) % 256 := hget i (by omega)
    have hgi256 : get i < 256 := by
      rw [hgi]
      exact Nat.mod_lt _ (by norm_num)
    have hlor : (res * 256) ||| get i = 256 * res + get i := by
      have hsh : res * 256 = res <<< 8 := by rw [Nat.shiftLeft_eq, h256]
      rw [hsh, lor_byte_eq_add res (get i) hgi256, h256]
    rw [hmod, hlor]
    have hbound : 256 * res + get i < 2 ^ (64 - 8 * i) := by omega
    rw [ih (by omega) (fun j hj => hget j (by omega)) _ hbound, hgi]
    have e2 : (2 : Nat) ^ (8 * (i + 1)) = 2 ^ (8 * i) * 256 := by
      have h8 : 8 * (i + 1) = 8 * i + 8 := by ring
      rw [h8, pow_add, h256]
    rw [e2, Nat.mod_mul]
    ring

/-- Unpacking the s bytes of a packed buffer accumulates the value mod
the window width. -/
theorem unpackAcc_packint (u : Nat) (islittle : Bool) (size : Nat) (neg : Bool)
    (hs : size ≤ 8) :
    unpackAcc (fun i => readByte (packint u islittle size neg) islittle size i) size 0 =
      u % 2 ^ (8 * size) := by
  rw [unpackAcc_eq (fun i => readByte (packint u islittle size neg) islittle size i) u size hs
    (fun j hj => readByte_packint u islittle size neg j hj hs) 0 (Nat.two_pow_pos _)]
  simp

/-- The unsigned view of a lua_Integer is below 2 ^ 64. -/
theorem toU64_lt (n : Int) : toU64 n < 2 ^ 64 := by
  rw [toU64]
  have h1 : n % ((2 : Int) ^ 64) < (2 : Int) ^ 64 := Int.emod_lt_of_pos n (by positivity)
  have h2 : 0 ≤ n % ((2 : Int) ^ 64) := Int.emod_nonneg n (by positivity)
  omega

/-- Cast form of the unsigned view: it is the value mod 2 ^ 64. -/
theorem toU64_cast (n : Int) : (toU64 n : Int) = n % ((2 : Int) ^ 64) := by
  rw [toU64]
  have h2 : 0 ≤ n % ((2 : Int) ^ 64) := Int.emod_nonneg n (by positivity)
  exact Int.toNat_of_nonneg h2

/-- Casting back the unsigned view of an in-range lua_Integer. -/
theorem toSigned64_toU64 (n : Int) (h0 : -((2 : Int) ^ 63) ≤ n) (h1 : n < (2 : Int) ^ 63) :
    toSigned64 (toU64 n) = n := by
  have hc := toU64_cast n
  rw [toSigned64]
  split
  · omega
  · omega

/-- The sign-extension step of unpackint, (res xor mask) - mask computed
in wrapping 64-bit unsigned arithmetic followed by the signed cast,
recovers an in-range lua_Integer from the low window of its unsigned
view. -/
theorem signext_toSigned64 (s : Nat) (hs1 : 1 ≤ s) (hs : s < 8) (n : Int)
    (hlo : -((2 : Int) ^ (8 * s - 1)) ≤ n) (hhi : n < (2 : Int) ^ (8 * s - 1)) :
    toSigned64 ((((toU64 n % 2 ^ (8 * s)) ^^^ 2 ^ (8 * s - 1)) +
      (U64 - 2 ^ (8 * s - 1))) % U64) = n := by
  have hm : (2 : Nat) ^ (8 * s) = 2 ^ (8 * s - 1) * 2 := by
    have h8 : 8 * s = (8 * s - 1) + 1 := by omega
    conv_lhs => rw [h8]
    rw [pow_succ]
  have cind : ((2 ^ (8 * s - 1) : Nat) : Int) = (2 : Int) ^ (8 * s - 1) := by
    push_cast
    ring
  have cm : ((2 ^ (8 * s) : Nat) : Int) = (2 : Int) ^ (8 * s) := by
    push_cast
    ring
  have hmI : (2 : Int) ^ (8 * s) = 2 ^ (8 * s - 1) * 2 := by
    rw [← cind, ← cm]
    exact_mod_cast hm
  have hk63 : (2 : Nat) ^ (8 * s - 1) ≤ 2 ^ 63 :=
    Nat.pow_le_pow_right (by norm_num) (by omega)
  have hk64 : (2 : Nat) ^ (8 * s) ≤ 2 ^ 64 :=
    Nat.pow_le_pow_right (by norm_num) (by omega)
  have hr2 : toU64 n % 2 ^ (8 * s) < 2 ^ (8 * s) := Nat.mod_lt _ (Nat.two_pow_pos _)
  have hrI : ((toU64 n % 2 ^ (8 * s) : Nat) : Int) = n % (2 : Int) ^ (8 * s) := by
    have hcast : ((toU64 n % 2 ^ (8 * s) : Nat) : Int) =
        (toU64 n : Int) % ((2 ^ (8 * s) : Nat) : Int) := by
      push_cast
      ring
    rw [hcast, cm, toU64_cast]
    exact Int.emod_emod_of_dvd n (pow_dvd_pow 2 (by omega))
  simp only [U64]
  rcases le_or_lt 0 n with hn | hn
  · have hnm : n % (2 : Int) ^ (8 * s) = n := by
      refine Int.emod_eq_of_lt hn ?_
      calc n < (2 : Int) ^ (8 * s - 1) := hhi
        _ ≤ 2 ^ (8 * s) := by omega
    have hrn : ((toU64 n % 2 ^ (8 * s) : Nat) : Int) = n := by rw [hrI, hnm]
    have hrlt : toU64 n % 2 ^ (8 * s) < 2 ^ (8 * s - 1) := by omega
    rw [xor_two_pow_of_lt _ _ hrlt]
    have hval : toU64 n % 2 ^ (8 * s) + 2 ^ (8 * s - 1) + (2 ^ 64 - 2 ^ (8 * s - 1)) =
        toU64 n % 2 ^ (8 * s) + 2 ^ 64 := by omega
    rw [hval, Nat.add_mod_right, Nat.mod_eq_of_lt (by omega)]
    rw [toSigned64]
    split
    · omega
    · omega
  · have hnm : n % (2 : Int) ^ (8 * s) = n + 2 ^ (8 * s) := by
      have h1 : (n + (2 : Int) ^ (8 * s) * 1) % (2 : Int) ^ (8 * s) = n % 2 ^ (8 * s) :=
        Int.add_mul_emod_self_left n _ 1
      rw [mul_one] at h1
      have h2 : 0 ≤ n + (2 : Int) ^ (8 * s) := by omega
      have h3 : n + (2 : Int) ^ (8 * s) < 2 ^ (8 * s) := by omega
      rw [← h1, Int.emod_eq_of_lt h2 h3]
    have hrn : ((toU64 n % 2 ^ (8 * s) : Nat) : Int) = n + (2 : Int) ^ (8 * s) := by
      rw [hrI, hnm]
    have hrge : 2 ^ (8 * s - 1) ≤ toU64 n % 2 ^ (8 * s) := by omega
    have hrlt : toU64 n % 2 ^ (8 * s) < 2 ^ ((8 * s - 1) + 1) := by
      have h8 : (8 * s - 1) + 1 = 8 * s := by omega
      rw [h8]
      exact hr2
    rw [xor_two_pow_of_ge _ _ hrge hrlt]
    have hval : toU64 n % 2 ^ (8 * s) - 2 ^ (8 * s - 1) + (2 ^ 64 - 2 ^ (8 * s - 1)) =
        toU64 n % 2 ^ (8 * s) + 2 ^ 64 - 2 ^ (8 * s) := by omega
    rw [hval, Nat.mod_eq_of_lt (by omega)]
    rw [toSigned64]
    split
    · omega
    · omega

/-- C10: integer serialization round-trips.  For either endianness and
every byte size s with 1 <= s <= SZINT, unpackint applied to the s bytes
produced by packint recovers the packed lua_Integer: in the signed case
for -2 ^ (8 s - 1) <= n < 2 ^ (8 s - 1) (packint receives the unsigned
cast of n and the sign flag, as str_pack passes them), and in the
unsigned case for any in-range lua_Integer whose unsigned view is below
2 ^ (8 s) (the overflow check of str_pack). -/
theorem lpack_packint_unpackint_roundtrip (islittle : Bool) (s : Nat)
    (hs1 : 1 ≤ s) (hs8 : s ≤ SZINT) (n : Int) :
    (-((2 : Int) ^ (8 * s - 1)) ≤ n → n < (2 : Int) ^ (8 * s - 1) →
      unpackint (packint (toU64 n) islittle s (decide (n < 0))) islittle s true =
        some n) ∧
    (-((2 : Int) ^ 63) ≤ n → n < (2 : Int) ^ 63 → toU64 n < 2 ^ (8 * s) →
      unpackint (packint (toU64 n) islittle s false) islittle s false = some n) := by
  have hs8n : s ≤ 8 := hs8
  have hlimit : (if s ≤ SZINT then s else SZINT) = s := if_pos hs8
  have hmask : (1 : Nat) <<< (s * lpackNB - 1) = 2 ^ (8 * s - 1) := by
    rw [Nat.shiftLeft_eq, one_mul]
    congr 1
    rw [show lpackNB = 8 from rfl]
    omega
  constructor
  · intro hlo hhi
    rw [unpackint]
    simp only [hlimit, hmask]
    rw [unpackAcc_packint (toU64 n) islittle s (decide (n < 0)) hs8n]
    rcases Nat.lt_or_ge s 8 with hs7 | hs88
    · rw [if_pos (show s < SZINT from hs7)]
      simp only [if_true]
      exact congrArg some (signext_toSigned64 s hs1 hs7 n hlo hhi)
    · have hseq : s = 8 := le_antisymm hs8n hs88
      subst hseq
      rw [if_neg (by decide), if_neg (by decide)]
      have h88 : (2 : Nat) ^ (8 * 8) = 2 ^ 64 := by norm_num
      rw [h88, Nat.mod_eq_of_lt (toU64_lt n)]
      refine congrArg some (toSigned64_toU64 n ?_ ?_)
      · have : (8 : Nat) * 8 - 1 = 63 := by norm_num
        rw [this] at hlo
        exact hlo
      · have : (8 : Nat) * 8 - 1 = 63 := by norm_num
        rw [this] at hhi
        exact hhi
  · intro hlo hhi hu
    rw [unpackint]
    simp only [hlimit]
    rw [unpackAcc_packint (toU64 n) islittle s false hs8n]
    rw [Nat.mod_eq_of_lt hu]
    rcases Nat.lt_or_ge s 8 with hs7 | hs88
    · rw [if_pos (show s < SZINT from hs7)]
      simp only [Bool.false_eq_true, if_false]
      exact congrArg some (toSigned64_toU64 n hlo hhi)
    · have hseq : s = 8 := le_antisymm hs8n hs88
      subst hseq
      rw [if_neg (by decide), if_neg (by decide)]
      exact congrArg some (toSigned64_toU64 n hlo hhi)

/-- Witness for lpack_packint_unpackint_roundtrip: -5 packed signed into
two little-endian bytes and 300 packed unsigned into two big-endian
bytes both round-trip. -/
theorem lpack_packint_unpackint_roundtrip_check :
    (-((2 : Int) ^ (8 * 2 - 1)) ≤ -5 ∧ (-5 : Int) < (2 : Int) ^ (8 * 2 - 1) ∧
      unpackint (packint (toU64 (-5)) true 2 (decide ((-5 : Int) < 0))) true 2 true =
        some (-5)) ∧
    (toU64 300 < 2 ^ (8 * 2) ∧
      unpackint (packint (toU64 300) false 2 false) false 2 false = some 300) :=
  ⟨⟨by decide, by decide,
    (lpack_packint_unpackint_roundtrip true 2 (by decide) (by decide) (-5)).1
      (by decide) (by decide)⟩,
   ⟨by decide,
    (lpack_packint_unpackint_roundtrip false 2 (by decide) (by decide) 300).2
      (by decide) (by decide) (by decide)⟩⟩

/-- Witness for recv_zero_layers_released at a concrete script status. -/
theorem recv_zero_layers_released_check :
    recv_iter 0 7 = { upcalled := false, recvInc := 0, released := true } :=
  recv_zero_layers_released 7
